import Mathlib

/-!
Verification development for the riassunti summarization pipeline
(`riassumi_libri.py`, `riassumi.py`, `riassuntiveloci.py`).

The Python code is shallowly embedded: Python `str` values are modelled as
`List Char` (one element per Unicode code point, matching Python's `len` and
slicing semantics) or as Lean `String` where convenient, Python `int` as
`Nat` (all indices handled here are provably non-negative under the stated
preconditions), Python `float` as `ℚ` (the arguments of the claims concern
ordering and rounding, not representation error), and Python `dict` as an
insertion-ordered association list.
-/

set_option maxRecDepth 100000
set_option maxHeartbeats 4000000

namespace Riassunti

/-! ### Python string primitives -/

/-- Whitespace test used by Python's `str.strip()` / `str.split()`
(restricted to the ASCII whitespace characters, which are the only ones
appearing in the texts considered here). -/
def isPySpace (c : Char) : Bool :=
  c = ' ' || c = '\t' || c = '\n' || c = '\r' || c = '\x0b' || c = '\x0c'

/-- Python `s.strip()`: remove leading and trailing whitespace. -/
def pyStrip (s : List Char) : List Char :=
  ((s.dropWhile isPySpace).reverse.dropWhile isPySpace).reverse

/-- Python `s.strip()` on `String`. -/
def pyStripStr (s : String) : String :=
  String.mk (pyStrip s.data)

/-- Python slice `s[a:b]` for `0 ≤ a ≤ b` (out-of-range bounds clamp). -/
def pySlice (s : List Char) (a b : Nat) : List Char :=
  (s.take b).drop a

/-- Helper for `pyRFindChar`: scan the list, remembering the last index in
`[lo, hi)` holding character `c`. -/
def pyRFindAux (c : Char) (lo hi : Nat) : List Char → Nat → Option Nat → Option Nat
  | [], _, best => best
  | ch :: rest, i, best =>
      pyRFindAux c lo hi rest (i + 1)
        (if lo ≤ i ∧ i < hi ∧ ch = c then some i else best)

/-- Python `s.rfind(c, lo, hi)` for a single-character needle: the highest
index in `[lo, hi)` where `c` occurs, and `-1` if there is none. -/
def pyRFindChar (s : List Char) (c : Char) (lo hi : Nat) : Int :=
  match pyRFindAux c lo hi s 0 none with
  | some i => (i : Int)
  | none => -1

/-- Python `str.split()` with no argument: split on runs of whitespace,
discarding empty pieces.  `acc` holds the current word reversed. -/
def pySplitAux : List Char → List Char → List (List Char)
  | [], acc => if acc.isEmpty then [] else [acc.reverse]
  | c :: rest, acc =>
      if isPySpace c then
        if acc.isEmpty then pySplitAux rest [] else acc.reverse :: pySplitAux rest []
      else pySplitAux rest (c :: acc)

/-- Python `text.split()`. -/
def pySplitWs (s : List Char) : List (List Char) :=
  pySplitAux s []

/-! ### Segmenter: `chunk_text` (riassumi_libri.py lines 169-204, and the
identical function in riassumi.py lines 139-175) -/

/-- One iteration of the `while` loop of `chunk_text`: from the window start,
compute the (possibly boundary-adjusted) window end.

    end = start + max_size
    if end < len(text):
        search_start = max(start, end - overlap)
        natural_break = max(text.rfind('.', search_start, end),
                            text.rfind('\n', search_start, end),
                            text.rfind(' ', search_start, end))
        if natural_break > start: end = natural_break + 1
-/
def chunkStep (text : List Char) (maxSize overlap start : Nat) : Nat :=
  let e0 := start + maxSize
  if e0 < text.length then
    let ss := max start (e0 - overlap)
    let nb := max (pyRFindChar text '.' ss e0)
      (max (pyRFindChar text '\n' ss e0) (pyRFindChar text ' ' ss e0))
    if (start : Int) < nb then nb.toNat + 1 else e0
  else e0

/-- The next window start: `start = end - overlap if end < len(text) else end`. -/
def chunkNextStart (text : List Char) (maxSize overlap start : Nat) : Nat :=
  let e := chunkStep text maxSize overlap start
  if e < text.length then e - overlap else e

/-- Fuel-indexed embedding of the `while start < len(text)` loop of
`chunk_text`; each iteration appends `text[start:end].strip()`.  `none` means
the fuel was exhausted before the loop finished. -/
def chunkLoop (text : List Char) (maxSize overlap : Nat) : Nat → Nat → Option (List (List Char))
  | 0, _ => none
  | fuel + 1, start =>
      if start < text.length then
        let e := chunkStep text maxSize overlap start
        (chunkLoop text maxSize overlap fuel (chunkNextStart text maxSize overlap start)).map
          (fun rest => pyStrip (pySlice text start e) :: rest)
      else some []

/-- Span-level companion of `chunkLoop`: records the `(start, end)` window of
each produced piece instead of the piece itself. -/
def chunkSpansLoop (text : List Char) (maxSize overlap : Nat) : Nat → Nat → Option (List (Nat × Nat))
  | 0, _ => none
  | fuel + 1, start =>
      if start < text.length then
        let e := chunkStep text maxSize overlap start
        (chunkSpansLoop text maxSize overlap fuel (chunkNextStart text maxSize overlap start)).map
          (fun rest => (start, e) :: rest)
      else some []

/-- `chunk_text(text, max_size, overlap)`.  The fuel `text.length + 1` is
sufficient whenever the loop terminates by advancing `start` each iteration;
`none` marks parameter combinations for which the Python loop never exits. -/
def chunk_text (text : List Char) (maxSize overlap : Nat) : Option (List (List Char)) :=
  if text.length ≤ maxSize then some [text]
  else chunkLoop text maxSize overlap (text.length + 1) 0

/-- The spans of the windows of `chunk_text` in the long-text case. -/
def chunkTextSpans (text : List Char) (maxSize overlap : Nat) : Option (List (Nat × Nat)) :=
  chunkSpansLoop text maxSize overlap (text.length + 1) 0

/-- Window coverage: the recorded spans start where the loop starts, chain
with a backstep of `overlap` characters, and the final window reaches the end
of the text.  This is the no-gap property of the segmenter's windows. -/
inductive SpansCover (len overlap : Nat) : Nat → List (Nat × Nat) → Prop
  | nil : ∀ s, len ≤ s → SpansCover len overlap s []
  | last : ∀ s e, s < len → s < e → len ≤ e → SpansCover len overlap s [(s, e)]
  | cons : ∀ s e rest, s < len → s < e → e < len → rest ≠ [] →
      SpansCover len overlap (e - overlap) rest → SpansCover len overlap s ((s, e) :: rest)

/-- The reconstruction operator named by the specification: concatenate the
returned pieces after removing the `overlap`-character prefix of every piece
but the first. -/
def reconMinusOverlap (overlap : Nat) : List (List Char) → List Char
  | [] => []
  | p :: rest => p ++ (rest.map (List.drop overlap)).flatten

/-- Concrete input used to analyse the segmenter: 800 letters followed by
401 spaces. -/
def c5text : List Char := List.replicate 800 'a' ++ List.replicate 401 ' '

/-! ### Sampling orchestrator: `split_text_into_chunks`
(riassuntiveloci.py lines 357-417) -/

/-- Python `int(q)` for the (validated non-negative) quantities appearing in
the sampling code: truncation toward zero, here equal to the floor. -/
def pyIntOfRat (q : ℚ) : Nat := (Int.floor q).toNat

/-- The initial word-based split of `split_text_into_chunks`:

    words = text.split()
    words_per_chunk = chunk_size // 5
    for i in range(0, len(words), words_per_chunk):
        chunk = ' '.join(words[i:i + words_per_chunk])
        if len(chunk) > 500: all_chunks.append(chunk)

For `chunk_size < 5` the Python `range` call raises `ValueError` (step 0);
this model is used only for `chunk_size ≥ 5`. -/
def allChunksOf (text : List Char) (chunkSize : Nat) : List (List Char) :=
  let words := pySplitWs text
  let wpc := chunkSize / 5
  let numSlices := if wpc = 0 then 0 else (words.length + wpc - 1) / wpc
  ((List.range numSlices).map (fun i =>
      List.intercalate [' '] ((words.drop (i * wpc)).take wpc))).filter
    (fun ch => 500 < ch.length)

/-- Number of chunks the sampler keeps:
`num_chunks_to_keep = max(2, int(total_chunks * sampling_ratio))`. -/
def sampleKeepCount (total : Nat) (sampFrac : ℚ) : Nat :=
  max 2 (pyIntOfRat ((total : ℚ) * sampFrac))

/-- Spacing of the middle samples:
`step = (total_chunks - 2) / (num_middle + 1)`. -/
def sampleMiddleStep (total m : Nat) : ℚ :=
  ((total : ℚ) - 2) / ((m : ℚ) + 1)

/-- The uniformly spaced middle chunks:

    if num_chunks_to_keep > 2:
        num_middle = num_chunks_to_keep - 2
        step = (total_chunks - 2) / (num_middle + 1)
        for i in range(1, num_middle + 1):
            idx = int(1 + i * step)
            if idx < total_chunks - 1: selected_chunks.append(all_chunks[idx])
-/
def sampleMiddles (all : List (List Char)) (keep : Nat) : List (List Char) :=
  if 2 < keep then
    ((List.range (keep - 2)).map (· + 1)).filterMap (fun (i : Nat) =>
      let idx := pyIntOfRat ((1 : ℚ) + (i : ℚ) * sampleMiddleStep all.length (keep - 2))
      if idx < all.length - 1 then some (all.getD idx []) else none)
  else []

/-- The chunk-selection stage of `split_text_into_chunks`: all chunks for
`sampling_ratio ≥ 1.0` or when the keep count already reaches the total,
otherwise first chunk, middle samples, last chunk. -/
def sampleSelect (all : List (List Char)) (sampFrac : ℚ) : List (List Char) :=
  if 1 ≤ sampFrac then all
  else
    let keep := sampleKeepCount all.length sampFrac
    if all.length ≤ keep then all
    else (all.getD 0 [] :: sampleMiddles all keep) ++ [all.getLastD []]

/-- `split_text_into_chunks(text, chunk_size, sampling_ratio)`.  The
`sampling_ratio` float (validated into `[0.0, 1.0]` by the CLI) is modelled
as a rational number `sampFrac`. -/
def split_text_into_chunks (text : List Char) (chunkSize : Nat) (sampFrac : ℚ) :
    List (List Char) :=
  if text.length ≤ chunkSize then [text]
  else sampleSelect (allChunksOf text chunkSize) sampFrac

/-- Concrete input used to analyse the sampler: 15 words of 101 letters,
space-separated (1529 characters; 3 chunks of 509 characters each for
`chunk_size = 25`). -/
def c6text : List Char := List.intercalate [' '] (List.replicate 15 (List.replicate 101 'a'))

/-! ### Fingerprinter: `compute_hash` (riassumi_libri.py lines 158-160)

`compute_hash(text)` is `hashlib.md5(text.encode('utf-8')).hexdigest()[:8]`.
The MD5 algorithm of `hashlib` (RFC 1321) is embedded below over `Nat` with
explicit reduction mod `2^32`; bytes are `Nat` values below 256. -/

/-- Python `text.encode('utf-8')` for one code point. -/
def utf8EncodeCp (c : Char) : List Nat :=
  let n := c.toNat
  if n < 128 then [n]
  else if n < 2048 then [192 + n / 64, 128 + n % 64]
  else if n < 65536 then [224 + n / 4096, 128 + n / 64 % 64, 128 + n % 64]
  else [240 + n / 262144, 128 + n / 4096 % 64, 128 + n / 64 % 64, 128 + n % 64]

/-- Python `text.encode('utf-8')`: the UTF-8 byte sequence of a string. -/
def pyEncodeUtf8 (s : List Char) : List Nat :=
  s.flatMap utf8EncodeCp

/-- Reduction modulo `2^32`. -/
def u32 (n : Nat) : Nat := n % 4294967296

/-- 32-bit left rotation (operand assumed `< 2^32`). -/
def rotl32 (x s : Nat) : Nat :=
  u32 (x * 2 ^ s) ||| x / 2 ^ (32 - s)

/-- 32-bit bitwise complement (operand assumed `< 2^32`). -/
def not32 (x : Nat) : Nat := Nat.xor x 4294967295

/-- The 64 MD5 sine-derived constants `K[i] = floor(2^32 * |sin(i+1)|)`. -/
def md5K : List Nat :=
  [3614090360, 3905402710, 606105819, 3250441966, 4118548399, 1200080426,
   2821735955, 4249261313, 1770035416, 2336552879, 4294925233, 2304563134,
   1804603682, 4254626195, 2792965006, 1236535329, 4129170786, 3225465664,
   643717713, 3921069994, 3593408605, 38016083, 3634488961, 3889429448,
   568446438, 3275163606, 4107603335, 1163531501, 2850285829, 4243563512,
   1735328473, 2368359562, 4294588738, 2272392833, 1839030562, 4259657740,
   2763975236, 1272893353, 4139469664, 3200236656, 681279174, 3936430074,
   3572445317, 76029189, 3654602809, 3873151461, 530742520, 3299628645,
   4096336452, 1126891415, 2878612391, 4237533241, 1700485571, 2399980690,
   4293915773, 2240044497, 1873313359, 4264355552, 2734768916, 1309151649,
   4149444226, 3174756917, 718787259, 3951481745]

/-- The per-round MD5 shift amounts. -/
def md5S : List Nat :=
  [7, 12, 17, 22, 7, 12, 17, 22, 7, 12, 17, 22, 7, 12, 17, 22,
   5, 9, 14, 20, 5, 9, 14, 20, 5, 9, 14, 20, 5, 9, 14, 20,
   4, 11, 16, 23, 4, 11, 16, 23, 4, 11, 16, 23, 4, 11, 16, 23,
   6, 10, 15, 21, 6, 10, 15, 21, 6, 10, 15, 21, 6, 10, 15, 21]

/-- The MD5 round function (rounds 0-15: F, 16-31: G, 32-47: H, 48-63: I). -/
def md5F (i b c d : Nat) : Nat :=
  if i < 16 then (b &&& c) ||| (not32 b &&& d)
  else if i < 32 then (d &&& b) ||| (not32 d &&& c)
  else if i < 48 then Nat.xor (Nat.xor b c) d
  else Nat.xor c (b ||| not32 d)

/-- The MD5 message-word index schedule. -/
def md5G (i : Nat) : Nat :=
  if i < 16 then i
  else if i < 32 then (5 * i + 1) % 16
  else if i < 48 then (3 * i + 5) % 16
  else (7 * i) % 16

/-- MD5 padding: append `0x80`, zero bytes to 56 mod 64, and the bit length
as 8 little-endian bytes. -/
def md5Pad (msg : List Nat) : List Nat :=
  let len := msg.length
  let zeros := (56 + 64 - (len + 1) % 64) % 64
  let bitLen := 8 * len % 18446744073709551616
  msg ++ [128] ++ List.replicate zeros 0 ++
    (List.range 8).map (fun i => bitLen / 2 ^ (8 * i) % 256)

/-- Split the padded message into 64-byte blocks. -/
def md5Blocks (l : List Nat) : List (List Nat) :=
  if l.length = 0 then [] else l.take 64 :: md5Blocks (l.drop 64)
termination_by l.length
decreasing_by
  rename_i h
  simp only [List.length_drop]
  omega

/-- Little-endian 32-bit words `M[0..15]` of one 64-byte block. -/
def md5Words (block : List Nat) (j : Nat) : Nat :=
  block.getD (4 * j) 0 + 256 * block.getD (4 * j + 1) 0 +
    65536 * block.getD (4 * j + 2) 0 + 16777216 * block.getD (4 * j + 3) 0

/-- One MD5 round applied to the state `(A, B, C, D)`. -/
def md5Round (M : Nat → Nat) (st : Nat × Nat × Nat × Nat) (i : Nat) :
    Nat × Nat × Nat × Nat :=
  let a := st.1
  let b := st.2.1
  let c := st.2.2.1
  let d := st.2.2.2
  let f := u32 (md5F i b c d + a + md5K.getD i 0 + M (md5G i))
  (d, u32 (b + rotl32 f (md5S.getD i 0)), b, c)

/-- Process one 64-byte block into the running state. -/
def md5Block (st : Nat × Nat × Nat × Nat) (block : List Nat) :
    Nat × Nat × Nat × Nat :=
  let r := (List.range 64).foldl (md5Round (md5Words block)) st
  (u32 (st.1 + r.1), u32 (st.2.1 + r.2.1), u32 (st.2.2.1 + r.2.2.1),
    u32 (st.2.2.2 + r.2.2.2))

/-- The four bytes of a 32-bit word, little-endian. -/
def wordBytesLE (w : Nat) : List Nat :=
  [w % 256, w / 256 % 256, w / 65536 % 256, w / 16777216 % 256]

/-- The 16-byte MD5 digest of a byte sequence. -/
def md5Digest (msg : List Nat) : List Nat :=
  let st := (md5Blocks (md5Pad msg)).foldl md5Block
    (1732584193, 4023233417, 2562383102, 271733878)
  wordBytesLE st.1 ++ wordBytesLE st.2.1 ++ wordBytesLE st.2.2.1 ++ wordBytesLE st.2.2.2

/-- The sixteen lowercase hexadecimal digits. -/
def hexDigits : List Char := "0123456789abcdef".data

/-- Character of one hexadecimal digit. -/
def hexChar (n : Nat) : Char := hexDigits.getD (n % 16) '0'

/-- `hashlib`'s `hexdigest()`: two lowercase hex characters per byte. -/
def md5Hex (msg : List Nat) : List Char :=
  (md5Digest msg).flatMap (fun b => [hexChar (b / 16), hexChar (b % 16)])

/-- `compute_hash(text)`: first 8 characters of the MD5 hexdigest of the
UTF-8 encoding of the text. -/
def compute_hash (s : String) : String :=
  String.mk ((md5Hex (pyEncodeUtf8 s.data)).take 8)

/-! ### Artifact filenames: encoding and directory-scan decoding
(riassumi_libri.py lines 552-577 and 1050-1052) -/

/-- ASCII decimal digit test (`\d` of the scan pattern, restricted to ASCII
as produced by the `{idx:02d}` format). -/
def isDigitChar (c : Char) : Bool := '0' ≤ c ∧ c ≤ '9'

/-- Lowercase-hex digit test (`[a-f0-9]` of the scan pattern). -/
def isHexLowerDigit (c : Char) : Bool := ('0' ≤ c ∧ c ≤ '9') || ('a' ≤ c ∧ c ≤ 'f')

/-- Numeric value of a digit string (`int(match.group(1))`). -/
def digitsVal (ds : List Char) : Nat :=
  ds.foldl (fun a c => a * 10 + (c.toNat - 48)) 0

/-- Character of one decimal digit. -/
def digChar (d : Nat) : Char := Char.ofNat (48 + d)

/-- Decimal representation of a natural number (`str(n)` for `n ≥ 1`). -/
def decRepr (n : Nat) : List Char :=
  ((Nat.digits 10 n).map digChar).reverse

/-- Python `f"{idx:02d}"`: decimal representation left-padded with `'0'` to
width 2 (for `idx ≥ 1`). -/
def pad2 (idx : Nat) : List Char :=
  if (decRepr idx).length < 2 then '0' :: decRepr idx else decRepr idx

/-- Final checks of the tail pattern: the candidate hash (reversed) must be
exactly 8 lowercase-hex characters and the middle part (reversed) must be
newline-free; on success return the hash in reading order. -/
def parseTailChecked (hrev mrev : List Char) : Option (List Char) :=
  if hrev.length = 8 ∧ hrev.all isHexLowerDigit ∧ mrev.all (· ≠ '\n') then
    some hrev.reverse
  else none

/-- After the reversed `".md"` suffix: split the remaining reversed
characters into the 8 hash candidates, the mandatory `'_'`, and the middle
part. -/
def parseTailAt (r2 : List Char) : Option (List Char) :=
  match r2.drop 8 with
  | '_' :: mrev => parseTailChecked (r2.take 8) mrev
  | _ => none

/-- Worker of `parseTailFrom` on the reversed tail: matches
`reverse(mid ++ "_" ++ h ++ ".md")` with `h` exactly 8 lowercase-hex
characters and `mid` free of newlines, returning `h`. -/
def parseTailRev (r : List Char) : Option (List Char) :=
  match r with
  | 'd' :: 'm' :: '.' :: r2 => parseTailAt r2
  | _ => none

/-- End-anchored part of the scan pattern `_([a-f0-9]{8})\.md$` applied to
`rest`: succeeds when `rest = mid ++ "_" ++ h ++ ".md"` with `h` exactly 8
lowercase-hex characters and `mid` free of newlines (the `.*` of the pattern
cannot cross a newline), returning `h`. -/
def parseTailFrom (rest : List Char) : Option (List Char) :=
  parseTailRev rest.reverse

/-- Python `re.match(r'^(\d+)_.*_([a-f0-9]{8})\.md$', filename)` followed by
`(int(m.group(1)), m.group(2))`.  The leading `(\d+)_` forces the maximal
digit prefix followed by `'_'`; the tail is end-anchored, where Python's `$`
also matches just before a single trailing newline. -/
def pyMatchAfterDigits (ds tail : List Char) : Option (Nat × List Char) :=
  match tail with
  | '_' :: rest =>
      match parseTailFrom rest with
      | some h => some (digitsVal ds, h)
      | none =>
          match rest.getLast? with
          | some '\n' =>
              (parseTailFrom rest.dropLast).map (fun h => (digitsVal ds, h))
          | _ => none
  | _ => none

/-- The full scan pattern: maximal digit prefix, then the end-anchored
tail via `pyMatchAfterDigits`. -/
def pyMatchChapterPat (s : List Char) : Option (Nat × List Char) :=
  if (s.takeWhile isDigitChar).isEmpty then none
  else pyMatchAfterDigits (s.takeWhile isDigitChar) (s.drop (s.takeWhile isDigitChar).length)

/-- The artifact filename written by `process_book` (line 1051):
`f"{idx:02d}_{safe_title}_{text_hash}.md"`. -/
def chapterFilename (idx : Nat) (safeTitle : List Char) (textHash : String) : List Char :=
  pad2 idx ++ '_' :: (safeTitle ++ '_' :: (textHash.data ++ ['.', 'm', 'd']))

/-! ### Checkpoint store (riassumi_libri.py lines 111-134, 529-577, 964-1027) -/

/-- Lookup in an insertion-ordered association list (Python `dict.get`). -/
def dictGet (d : List (Nat × String)) (k : Nat) : Option String :=
  (d.find? (fun p => p.1 = k)).map (fun p => p.2)

/-- Update in an insertion-ordered association list (Python `d[k] = v`). -/
def dictSet (d : List (Nat × String)) (k : Nat) (v : String) : List (Nat × String) :=
  if (d.find? (fun p => p.1 = k)).isSome then
    d.map (fun p => if p.1 = k then (k, v) else p)
  else d ++ [(k, v)]

/-- The `ResumeState` dataclass. -/
structure ResumeState where
  completed : List Nat
  chapter_hashes : List (Nat × String)
  total_chapters : Nat
  model : String
deriving DecidableEq, Repr

/-- `scan_existing_chapters(chapters_dir)`: match every directory entry
against `^(\d+)_.*_([a-f0-9]{8})\.md$` and collect `{index: hash}`. -/
def scan_existing_chapters (files : List (List Char)) : List (Nat × String) :=
  files.foldl
    (fun acc f =>
      match pyMatchChapterPat f with
      | some (idx, h) => dictSet acc idx (String.mk h)
      | none => acc)
    []

/-- The resume-state initialization of `process_book` (lines 964-986): a
missing or unparseable checkpoint yields a fresh empty state; a loaded state
whose recorded model differs from the current run's model has its completed
list and fingerprint map cleared.  (`scan_existing_chapters` is also invoked
there, line 968, but its result is bound to a variable that is never read.) -/
def initResumeState (loaded : Option ResumeState) (curModel : String)
    (keptCount : Nat) : ResumeState :=
  let st := match loaded with
    | none => ResumeState.mk [] [] keptCount curModel
    | some s => s
  if st.model ≠ curModel then
    { st with completed := [], chapter_hashes := [] }
  else st

/-- Outcome of the per-chapter resume check of `process_book`
(lines 1000-1027). -/
inductive ChapterAction where
  | skipLoaded (summary : String)
  | regenerate
deriving DecidableEq, Repr

/-- The artifact-existence check of `process_book` (lines 1005-1009): the
first directory entry `f` with `f.startswith(f"{idx:02d}_")` and
`f.endswith(f"_{text_hash}.md")`. -/
def findChapterFile (files : List (List Char × String)) (idx : Nat)
    (textHash : String) : Option (List Char × String) :=
  files.find? (fun f =>
    (pad2 idx ++ ['_']).isPrefixOf f.1 &&
      ('_' :: textHash.data ++ ['.', 'm', 'd']).isSuffixOf f.1)

/-- The per-chapter skip decision of `process_book` (lines 1000-1027): skip
only when the index is recorded completed, the stored fingerprint equals the
chapter's freshly computed fingerprint, and a matching artifact file exists
(whose stored summary is then loaded); any other combination regenerates.
Reading the found file is modelled as the file's stored content (the
`except` fallback to regeneration is unreachable in this pure model). -/
def chapterAction (st : ResumeState) (files : List (List Char × String))
    (idx : Nat) (textHash : String) : ChapterAction :=
  if idx ∈ st.completed then
    if dictGet st.chapter_hashes idx = some textHash then
      match findChapterFile files idx textHash with
      | some f => ChapterAction.skipLoaded f.2
      | none => ChapterAction.regenerate
    else ChapterAction.regenerate
  else ChapterAction.regenerate

/-- Number of service calls `summarize_chapter` performs (lines 584-666):
one direct MAP call for a short chapter; otherwise one MAP call per chunk
plus one REDUCE call when at least one MAP call succeeded.  `mapOk i` tells
whether the service call for chunk `i` returns a summary. -/
def summarizeChapterCalls (text : List Char) (maxChars overlap : Nat)
    (mapOk : Nat → Bool) : Nat :=
  if text.length ≤ maxChars then 1
  else
    match chunk_text text maxChars overlap with
    | none => 0
    | some chunks =>
        chunks.length + (if (List.range chunks.length).any mapOk then 1 else 0)

/-- Service calls performed for one chapter by `process_book`: zero on the
skip path, the `summarize_chapter` calls otherwise. -/
def chapterServiceCalls (st : ResumeState) (files : List (List Char × String))
    (idx : Nat) (textHash : String) (text : List Char) (maxChars overlap : Nat)
    (mapOk : Nat → Bool) : Nat :=
  match chapterAction st files idx textHash with
  | ChapterAction.skipLoaded _ => 0
  | ChapterAction.regenerate => summarizeChapterCalls text maxChars overlap mapOk

/-! ### Checkpoint persistence: `save_resume_state`
(riassumi_libri.py lines 543-549)

    def save_resume_state(state, state_path):
        with open(state_path, 'w', encoding='utf-8') as f:
            json.dump(state.to_dict(), f, indent=2, ensure_ascii=False)

The filesystem effect is modelled as a trace of primitive operations over a
map from paths to file contents; a process kill during save corresponds to
executing only a prefix of the trace. -/

/-- Decimal string of a natural number (Python `str(n)`). -/
def natStr (n : Nat) : String :=
  if n = 0 then "0" else String.mk (decRepr n)

/-- JSON string escaping of one character (quote and backslash; the model
strings used here contain no control characters). -/
def jsonEscChar (c : Char) : List Char :=
  if c = '"' ∨ c = '\\' then ['\\', c] else [c]

/-- A JSON string literal. -/
def jsonOfString (s : String) : String :=
  "\"" ++ String.mk (s.data.flatMap jsonEscChar) ++ "\""

/-- JSON rendering of the `completed` list. -/
def jsonNatList (l : List Nat) : String :=
  "[" ++ String.intercalate ", " (l.map natStr) ++ "]"

/-- JSON rendering of the `chapter_hashes` dict (keys become strings, as in
Python's JSON encoding of an int-keyed dict). -/
def jsonHashDict (d : List (Nat × String)) : String :=
  "\x7b" ++ String.intercalate ", "
    (d.map (fun p => jsonOfString (natStr p.1) ++ ": " ++ jsonOfString p.2)) ++ "\x7d"

/-- The serialized checkpoint `json.dump(state.to_dict(), ...)` (whitespace
layout abbreviated relative to `indent=2`; no claim depends on the byte
layout, only on the content being written in one piece, non-empty). -/
def stateJson (st : ResumeState) : String :=
  "\x7b\"completed\": " ++ jsonNatList st.completed ++
    ", \"chapter_hashes\": " ++ jsonHashDict st.chapter_hashes ++
    ", \"total_chapters\": " ++ natStr st.total_chapters ++
    ", \"model\": " ++ jsonOfString st.model ++ "\x7d"

/-- Primitive filesystem operations. -/
inductive FsOp where
  | openTrunc (path : String)
  | writeAll (path : String) (data : String)
  | rename (src dst : String)
deriving DecidableEq, Repr

/-- Effect of one operation on the path-to-content map. -/
def applyFsOp (fs : String → Option String) : FsOp → String → Option String
  | FsOp.openTrunc p, q => if q = p then some "" else fs q
  | FsOp.writeAll p d, q => if q = p then some ((fs p).getD "" ++ d) else fs q
  | FsOp.rename src dst, q =>
      if q = dst then fs src else if q = src then none else fs q

/-- Effect of a trace of operations. -/
def runFsOps (fs : String → Option String) (ops : List FsOp) : String → Option String :=
  ops.foldl applyFsOp fs

/-- The filesystem trace of `save_resume_state`: open the checkpoint path
with truncation, then write the serialized state.  There is no temporary
file and no rename. -/
def save_resume_state_ops (st : ResumeState) (statePath : String) : List FsOp :=
  [FsOp.openTrunc statePath, FsOp.writeAll statePath (stateJson st)]

/-- Concrete pre-existing filesystem for the C3 scenario: the checkpoint
file holds a previous serialized state. -/
def c3fs : String → Option String :=
  fun p => if p = "state.json" then some "OLD-STATE" else none

/-- Concrete state being saved in the C3 scenario. -/
def c3state : ResumeState :=
  ResumeState.mk [1] [(1, "0a1b2c3d")] 3 "qwen3:8b"

/-- The five artifact filenames of the reconciliation scenario: checkpoint
deleted, five completed units on disk with valid `(index, fingerprint)`
names. -/
def c1files : List (List Char) :=
  ["01_Capitolo 1_00000001.md".data, "02_Capitolo 2_00000002.md".data,
   "03_Capitolo 3_00000003.md".data, "04_Capitolo 4_00000004.md".data,
   "05_Capitolo 5_00000005.md".data]

/-- The same five artifacts with their stored summaries, as the chapters
directory listing seen by `process_book`. -/
def c1dir : List (List Char × String) :=
  c1files.map (fun f => (f, "riassunto"))

/-- The index/fingerprint pairs encoded by `c1files`. -/
def c1pairs : List (Nat × String) :=
  [(1, "00000001"), (2, "00000002"), (3, "00000003"), (4, "00000004"), (5, "00000005")]

/-! ### Service adapters: `call_ollama` (riassumi_libri.py lines 327-383)
and `call_ollama_fast` (riassuntiveloci.py lines 108-190)

Each attempt's interaction with the external service is an oracle from the
attempt number to an outcome.  The embeddings return the Python result
together with the list of backoff sleeps performed (in seconds, in order)
and the number of attempts consumed. -/

/-- Kinds of `requests.exceptions.RequestException`; `Timeout`,
`ConnectionError` and `HTTPError` (raised by `raise_for_status()` on an
HTTP error response) are all subclasses of `RequestException`. -/
inductive ReqExcKind where
  | timeoutExc
  | connExc
  | httpExc (status : Nat)
  | otherReqExc
deriving DecidableEq, Repr

/-- Outcome of one attempt as seen by `call_ollama`'s two handlers. -/
inductive CallOutcome where
  | ok (response : String)
  | reqExc (k : ReqExcKind)
  | otherExc (msg : String)

/-- The `for attempt in range(max_retries)` loop of `call_ollama`: success
returns the stripped response; any `RequestException` (timeouts, connection
failures, and HTTP errors alike) sleeps `2 ** (attempt + 1)` seconds and
retries unless it was the last attempt; any other exception returns `None`
immediately.  The fuel equals the remaining loop iterations. -/
def callOllamaLoop (att : Nat → CallOutcome) (maxRetries : Nat) :
    Nat → Nat → List Nat → Option String × List Nat × Nat
  | 0, attempt, sleeps => (none, sleeps, attempt)
  | fuel + 1, attempt, sleeps =>
      if attempt < maxRetries then
        match att attempt with
        | CallOutcome.ok r => (some (pyStripStr r), sleeps, attempt + 1)
        | CallOutcome.reqExc _ =>
            if attempt < maxRetries - 1 then
              callOllamaLoop att maxRetries fuel (attempt + 1)
                (sleeps ++ [2 ^ (attempt + 1)])
            else (none, sleeps, attempt + 1)
        | CallOutcome.otherExc _ => (none, sleeps, attempt + 1)
      else (none, sleeps, attempt)

/-- `call_ollama(prompt, model, ..., max_retries)`. -/
def call_ollama (att : Nat → CallOutcome) (maxRetries : Nat) :
    Option String × List Nat × Nat :=
  callOllamaLoop att maxRetries maxRetries 0 []

/-- The failure classification built by `call_ollama_fast` (the formatted
message string is omitted; claims concern the kind and attempt count). -/
structure FailureInfo where
  kind : String
  attempts : Nat
deriving DecidableEq, Repr

/-- Outcome of one attempt as seen by `call_ollama_fast`'s five handlers. -/
inductive FastOutcome where
  | ok (response : String)
  | timeoutExc
  | connExc (msg : String)
  | httpExc (status : Nat)
  | otherExc (msg : String)

/-- The retry loop of `call_ollama_fast`: empty successful responses are
recorded and retried without sleeping; timeouts, connection errors and
unknown errors back off `2 ** attempt` seconds before retrying; an
`HTTPError` breaks out of the loop immediately. -/
def callFastLoop (att : Nat → FastOutcome) (maxRetries : Nat) :
    Nat → Nat → Option FailureInfo → List Nat →
      (Option String × Option FailureInfo) × List Nat × Nat
  | 0, attempt, lastErr, sleeps => ((none, lastErr), sleeps, attempt)
  | fuel + 1, attempt, lastErr, sleeps =>
      if attempt < maxRetries then
        match att attempt with
        | FastOutcome.ok r =>
            if pyStripStr r = "" then
              callFastLoop att maxRetries fuel (attempt + 1)
                (some (FailureInfo.mk "empty_response" (attempt + 1))) sleeps
            else ((some (pyStripStr r), none), sleeps, attempt + 1)
        | FastOutcome.timeoutExc =>
            if attempt < maxRetries - 1 then
              callFastLoop att maxRetries fuel (attempt + 1)
                (some (FailureInfo.mk "timeout" (attempt + 1))) (sleeps ++ [2 ^ attempt])
            else ((none, some (FailureInfo.mk "timeout" (attempt + 1))), sleeps, attempt + 1)
        | FastOutcome.connExc _ =>
            if attempt < maxRetries - 1 then
              callFastLoop att maxRetries fuel (attempt + 1)
                (some (FailureInfo.mk "connection" (attempt + 1))) (sleeps ++ [2 ^ attempt])
            else ((none, some (FailureInfo.mk "connection" (attempt + 1))), sleeps, attempt + 1)
        | FastOutcome.httpExc _ =>
            ((none, some (FailureInfo.mk "http_error" (attempt + 1))), sleeps, attempt + 1)
        | FastOutcome.otherExc _ =>
            if attempt < maxRetries - 1 then
              callFastLoop att maxRetries fuel (attempt + 1)
                (some (FailureInfo.mk "unknown" (attempt + 1))) (sleeps ++ [2 ^ attempt])
            else ((none, some (FailureInfo.mk "unknown" (attempt + 1))), sleeps, attempt + 1)
      else ((none, lastErr), sleeps, attempt)

/-- `call_ollama_fast(prompt, model, max_retries)`. -/
def call_ollama_fast (att : Nat → FastOutcome) (maxRetries : Nat) :
    (Option String × Option FailureInfo) × List Nat × Nat :=
  callFastLoop att maxRetries maxRetries 0 none []

/-! ### Lemmas about the segmenter -/

theorem pyRFindAux_bounds (c : Char) (lo hi : Nat) :
    ∀ (l : List Char) (i : Nat) (best : Option Nat),
      (∀ k, best = some k → lo ≤ k ∧ k < hi) →
      ∀ j, pyRFindAux c lo hi l i best = some j → lo ≤ j ∧ j < hi := by
  intro l
  induction l with
  | nil =>
      intro i best hbest j hj
      exact hbest j hj
  | cons ch rest ih =>
      intro i best hbest j hj
      refine ih (i + 1) _ ?_ j hj
      intro k hk
      by_cases h : lo ≤ i ∧ i < hi ∧ ch = c
      · simp only [if_pos h] at hk
        cases hk
        exact ⟨h.1, h.2.1⟩
      · simp only [if_neg h] at hk
        exact hbest k hk

theorem pyRFindChar_cases (s : List Char) (c : Char) (lo hi : Nat) :
    pyRFindChar s c lo hi = -1 ∨
      ∃ j : Nat, pyRFindChar s c lo hi = (j : Int) ∧ lo ≤ j ∧ j < hi := by
  unfold pyRFindChar
  cases h : pyRFindAux c lo hi s 0 none with
  | none => exact Or.inl rfl
  | some j =>
      right
      refine ⟨j, rfl, ?_⟩
      exact pyRFindAux_bounds c lo hi s 0 none (by intro k hk; cases hk) j h

/-- In the boundary-adjustment branch, the found natural break lies inside the
backward search window `[search_start, end)`. -/
theorem chunkStep_break_bounds (text : List Char) (maxSize overlap start : Nat)
    (_hlt : start + maxSize < text.length)
    (hnb : (start : Int) <
      max (pyRFindChar text '.' (max start (start + maxSize - overlap)) (start + maxSize))
        (max (pyRFindChar text '\n' (max start (start + maxSize - overlap)) (start + maxSize))
          (pyRFindChar text ' ' (max start (start + maxSize - overlap)) (start + maxSize)))) :
    max start (start + maxSize - overlap) ≤
        (max (pyRFindChar text '.' (max start (start + maxSize - overlap)) (start + maxSize))
          (max (pyRFindChar text '\n' (max start (start + maxSize - overlap)) (start + maxSize))
            (pyRFindChar text ' ' (max start (start + maxSize - overlap)) (start + maxSize)))).toNat ∧
      (max (pyRFindChar text '.' (max start (start + maxSize - overlap)) (start + maxSize))
        (max (pyRFindChar text '\n' (max start (start + maxSize - overlap)) (start + maxSize))
          (pyRFindChar text ' ' (max start (start + maxSize - overlap)) (start + maxSize)))).toNat
        < start + maxSize := by
  set ss := max start (start + maxSize - overlap) with hss
  set r1 := pyRFindChar text '.' ss (start + maxSize) with hr1
  set r2 := pyRFindChar text '\n' ss (start + maxSize) with hr2
  set r3 := pyRFindChar text ' ' ss (start + maxSize) with hr3
  have hnn : (0 : Int) ≤ max r1 (max r2 r3) := le_trans (by positivity) (le_of_lt hnb)
  have hone : max r1 (max r2 r3) = r1 ∨ max r1 (max r2 r3) = r2 ∨ max r1 (max r2 r3) = r3 := by
    rcases max_choice r1 (max r2 r3) with h | h
    · exact Or.inl h
    · rcases max_choice r2 r3 with h' | h'
      · exact Or.inr (Or.inl (h.trans h'))
      · exact Or.inr (Or.inr (h.trans h'))
  have hbound : ∀ r : Int, r = r1 ∨ r = r2 ∨ r = r3 → 0 ≤ r →
      ss ≤ r.toNat ∧ r.toNat < start + maxSize := by
    intro r hr hr0
    have hc : r = -1 ∨ ∃ j : Nat, r = (j : Int) ∧ ss ≤ j ∧ j < start + maxSize := by
      rcases hr with h | h | h
      · rw [h, hr1]; exact pyRFindChar_cases _ _ _ _
      · rw [h, hr2]; exact pyRFindChar_cases _ _ _ _
      · rw [h, hr3]; exact pyRFindChar_cases _ _ _ _
    rcases hc with h | ⟨j, hj, hj1, hj2⟩
    · omega
    · subst hj; simpa using ⟨hj1, hj2⟩
  rcases hone with h | h | h
  · rw [h]; exact hbound r1 (Or.inl rfl) (h ▸ hnn)
  · rw [h]; exact hbound r2 (Or.inr (Or.inl rfl)) (h ▸ hnn)
  · rw [h]; exact hbound r3 (Or.inr (Or.inr rfl)) (h ▸ hnn)

/-- The adjusted window end stays strictly to the right of the window start,
and never exceeds the raw end `start + maxSize`. -/
theorem chunkStep_bounds (text : List Char) (maxSize overlap start : Nat)
    (hm : 0 < maxSize) :
    start < chunkStep text maxSize overlap start ∧
      chunkStep text maxSize overlap start ≤ start + maxSize := by
  unfold chunkStep
  by_cases h0 : start + maxSize < text.length
  · simp only [if_pos h0]
    by_cases hnb : (start : Int) <
        max (pyRFindChar text '.' (max start (start + maxSize - overlap)) (start + maxSize))
          (max (pyRFindChar text '\n' (max start (start + maxSize - overlap)) (start + maxSize))
            (pyRFindChar text ' ' (max start (start + maxSize - overlap)) (start + maxSize)))
    · simp only [if_pos hnb]
      have hb := chunkStep_break_bounds text maxSize overlap start h0 hnb
      omega
    · simp only [if_neg hnb]
      omega
  · simp only [if_neg h0]
    omega

/-- Key advance property: under the precondition `maxSize ≥ 2·overlap`, each
iteration of the `chunk_text` loop moves the window start strictly forward. -/
theorem chunkNextStart_advance (text : List Char) (maxSize overlap start : Nat)
    (hpre : 2 * overlap ≤ maxSize) (hm : 0 < maxSize) :
    start < chunkNextStart text maxSize overlap start := by
  unfold chunkNextStart
  set e := chunkStep text maxSize overlap start with he
  by_cases hlen : e < text.length
  · simp only [if_pos hlen]
    have h0 : start + maxSize < text.length := by
      by_contra hc
      have : e = start + maxSize := by
        rw [he]; unfold chunkStep; simp only [if_neg (by omega : ¬ start + maxSize < text.length)]
      omega
    rw [he]
    unfold chunkStep
    simp only [if_pos h0]
    by_cases hnb : (start : Int) <
        max (pyRFindChar text '.' (max start (start + maxSize - overlap)) (start + maxSize))
          (max (pyRFindChar text '\n' (max start (start + maxSize - overlap)) (start + maxSize))
            (pyRFindChar text ' ' (max start (start + maxSize - overlap)) (start + maxSize)))
    · simp only [if_pos hnb]
      have hb := chunkStep_break_bounds text maxSize overlap start h0 hnb
      omega
    · simp only [if_neg hnb]
      omega
  · simp only [if_neg hlen]
    exact (chunkStep_bounds text maxSize overlap start hm).1

/-- Unfolding equation of `chunkLoop` for positive fuel. -/
theorem chunkLoop_succ (text : List Char) (maxSize overlap fuel start : Nat) :
    chunkLoop text maxSize overlap (fuel + 1) start =
      if start < text.length then
        (chunkLoop text maxSize overlap fuel (chunkNextStart text maxSize overlap start)).map
          (fun rest => pyStrip (pySlice text start (chunkStep text maxSize overlap start)) :: rest)
      else some [] := rfl

/-- Unfolding equation of `chunkSpansLoop` for positive fuel. -/
theorem chunkSpansLoop_succ (text : List Char) (maxSize overlap fuel start : Nat) :
    chunkSpansLoop text maxSize overlap (fuel + 1) start =
      if start < text.length then
        (chunkSpansLoop text maxSize overlap fuel (chunkNextStart text maxSize overlap start)).map
          (fun rest => (start, chunkStep text maxSize overlap start) :: rest)
      else some [] := rfl

/-- With fuel exceeding the remaining distance to the end of the text, the
span-recording loop completes and its spans chain without gaps from the
current start to the end of the text. -/
theorem chunkSpansLoop_cover (text : List Char) (maxSize overlap : Nat)
    (hpre : 2 * overlap ≤ maxSize) (hm : 0 < maxSize) :
    ∀ fuel start, text.length - start < fuel → start < text.length →
      ∃ sp, chunkSpansLoop text maxSize overlap fuel start = some sp ∧
        SpansCover text.length overlap start sp := by
  intro fuel
  induction fuel with
  | zero => intro start hfuel _; omega
  | succ f ih =>
      intro start hfuel hstart
      have hadv := chunkNextStart_advance text maxSize overlap start hpre hm
      have hstep := chunkStep_bounds text maxSize overlap start hm
      set e := chunkStep text maxSize overlap start with he
      by_cases hend : e < text.length
      · have hnext : chunkNextStart text maxSize overlap start = e - overlap := by
          unfold chunkNextStart; rw [← he]; simp only [if_pos hend]
        obtain ⟨sp', hsp', hcov'⟩ := ih (chunkNextStart text maxSize overlap start)
          (by omega) (by omega)
        have hne : sp' ≠ [] := by
          intro hnil
          subst hnil
          cases hcov' with
          | nil _ hle => omega
        refine ⟨(start, e) :: sp', ?_, ?_⟩
        · rw [chunkSpansLoop_succ, if_pos hstart, hsp', ← he]
          rfl
        · rw [hnext] at hcov'
          exact SpansCover.cons start e sp' hstart hstep.1 hend hne hcov'
      · have hnext : chunkNextStart text maxSize overlap start = e := by
          unfold chunkNextStart; rw [← he]; simp only [if_neg hend]
        obtain ⟨f', rfl⟩ : ∃ f', f = f' + 1 := ⟨f - 1, by omega⟩
        have hrec : chunkSpansLoop text maxSize overlap (f' + 1)
            (chunkNextStart text maxSize overlap start) = some [] := by
          rw [chunkSpansLoop_succ, hnext, if_neg (by omega : ¬ e < text.length)]
        refine ⟨[(start, e)], ?_, ?_⟩
        · rw [chunkSpansLoop_succ, if_pos hstart, hrec, ← he]
          rfl
        · exact SpansCover.last start e hstart hstep.1 (by omega)

/-- The piece-producing loop computes exactly the whitespace-stripped slices
of the spans that the span-recording loop computes. -/
theorem chunkLoop_eq_spans (text : List Char) (maxSize overlap : Nat) :
    ∀ fuel start sp, chunkSpansLoop text maxSize overlap fuel start = some sp →
      chunkLoop text maxSize overlap fuel start =
        some (sp.map (fun ab => pyStrip (pySlice text ab.1 ab.2))) := by
  intro fuel
  induction fuel with
  | zero => intro start sp h; simp [chunkSpansLoop] at h
  | succ f ih =>
      intro start sp h
      rw [chunkSpansLoop_succ] at h
      rw [chunkLoop_succ]
      by_cases hstart : start < text.length
      · rw [if_pos hstart] at h
        rw [if_pos hstart]
        cases hrec : chunkSpansLoop text maxSize overlap f
            (chunkNextStart text maxSize overlap start) with
        | none => rw [hrec] at h; simp at h
        | some sp' =>
            rw [hrec] at h
            simp only [Option.map, Option.some.injEq] at h
            subst h
            rw [ih _ _ hrec]
            rfl
      · rw [if_neg hstart] at h
        rw [if_neg hstart]
        simp only [Option.some.injEq] at h
        subst h
        rfl

/-- Chained spans cover every position of the text: no gaps. -/
theorem SpansCover.covers_point {len overlap : Nat} :
    ∀ {s sp}, SpansCover len overlap s sp →
      ∀ p, s ≤ p → p < len → ∃ ab ∈ sp, ab.1 ≤ p ∧ p < ab.2 := by
  intro s sp h
  induction h with
  | nil s hle => intro p hp1 hp2; omega
  | last s e hs hse hle => intro p hp1 hp2; exact ⟨(s, e), by simp, by simp; omega⟩
  | cons s e rest hs hse helt hne hrest ih =>
      intro p hp1 hp2
      by_cases hpe : p < e
      · exact ⟨(s, e), by simp, by simp; omega⟩
      · obtain ⟨ab, hab, h1, h2⟩ := ih p (by omega) hp2
        exact ⟨ab, by simp [hab], h1, h2⟩

/-- The segmenter's loop finishes within its fuel under the precondition
`maxSize ≥ 2·overlap > 0`. -/
theorem chunk_text_total (text : List Char) (maxSize overlap : Nat)
    (hpre : 2 * overlap ≤ maxSize) (hm : 0 < maxSize) :
    ∃ pieces, chunk_text text maxSize overlap = some pieces := by
  unfold chunk_text
  by_cases hshort : text.length ≤ maxSize
  · exact ⟨[text], by rw [if_pos hshort]⟩
  · rw [if_neg hshort]
    obtain ⟨sp, hsp, _⟩ := chunkSpansLoop_cover text maxSize overlap hpre hm
      (text.length + 1) 0 (by omega) (by omega)
    exact ⟨_, chunkLoop_eq_spans text maxSize overlap _ _ _ hsp⟩

/-- C9: for every text and all parameters with `maxSize ≥ 2·overlap` and
`maxSize > 0` (`overlap ≥ 0` holds by the `Nat` embedding), each iteration of
the segmenter's while-loop advances the window start by at least one
character, so `chunk_text` returns a finite list for every such input. -/
theorem claim_C9_termination (text : List Char) (maxSize overlap : Nat)
    (hpre : 2 * overlap ≤ maxSize) (hm : 0 < maxSize) :
    (∀ start, start < text.length → start + 1 ≤ chunkNextStart text maxSize overlap start) ∧
    ∃ pieces, chunk_text text maxSize overlap = some pieces := by
  constructor
  · intro start hstart
    exact chunkNextStart_advance text maxSize overlap start hpre hm
  · exact chunk_text_total text maxSize overlap hpre hm

/-- Witness for C9 at a concrete input. -/
theorem claim_C9_witness :
    ∃ pieces, chunk_text (List.replicate 10 'a') 4 2 = some pieces :=
  (claim_C9_termination (List.replicate 10 'a') 4 2 (by norm_num) (by norm_num)).2

/-- C5 as stated is false: on `c5text` with `maxSize = 800` and the
configured `overlap = 400`, the segmenter returns a piece that is the empty
string (its window is entirely whitespace, and `.strip()` erases it), and
concatenating the pieces after removing the overlapping prefixes does not
reconstruct the input (the trailing whitespace was stripped away). -/
theorem claim_C5_counterexample :
    chunk_text c5text 800 400 =
      some [List.replicate 800 'a', List.replicate 400 'a', []] ∧
    ([] : List Char) ∈ [List.replicate 800 'a', List.replicate 400 'a', ([] : List Char)] ∧
    reconMinusOverlap 400 [List.replicate 800 'a', List.replicate 400 'a', []] ≠ c5text := by
  refine ⟨by decide, by decide, by decide⟩

/-- C5 (amended): for every text with `maxSize ≥ 2·overlap > 0`, the pieces
returned by the segmenter are exactly the whitespace-stripped contents of
consecutive windows that cover the whole input with no gaps (the first window
starts at 0; each subsequent window starts `overlap` characters before the
previous window's end; the final window reaches the end of the text; every
position of the text lies in some window).  Reconstruction of the input and
non-emptiness of the pieces hold only up to the whitespace stripped at window
boundaries. -/
theorem claim_C5_amended (text : List Char) (maxSize overlap : Nat)
    (hpre : 2 * overlap ≤ maxSize) (hm : 0 < maxSize) :
    (text.length ≤ maxSize → chunk_text text maxSize overlap = some [text]) ∧
    (maxSize < text.length →
      ∃ spans, chunkTextSpans text maxSize overlap = some spans ∧
        chunk_text text maxSize overlap =
          some (spans.map (fun ab => pyStrip (pySlice text ab.1 ab.2))) ∧
        SpansCover text.length overlap 0 spans ∧
        ∀ p, p < text.length → ∃ ab ∈ spans, ab.1 ≤ p ∧ p < ab.2) := by
  constructor
  · intro hshort
    unfold chunk_text
    rw [if_pos hshort]
  · intro hlong
    obtain ⟨sp, hsp, hcov⟩ := chunkSpansLoop_cover text maxSize overlap hpre hm
      (text.length + 1) 0 (by omega) (by omega)
    refine ⟨sp, hsp, ?_, hcov, ?_⟩
    · unfold chunk_text
      rw [if_neg (by omega)]
      exact chunkLoop_eq_spans text maxSize overlap _ _ _ hsp
    · intro p hp
      exact hcov.covers_point p (Nat.zero_le p) hp

/-- Witness for the amended C5 at a concrete long input. -/
theorem claim_C5_witness :
    ∃ spans, chunkTextSpans (List.replicate 10 'a') 4 2 = some spans ∧
      chunk_text (List.replicate 10 'a') 4 2 =
        some (spans.map (fun ab => pyStrip (pySlice (List.replicate 10 'a') ab.1 ab.2))) ∧
      SpansCover (List.replicate 10 'a').length 2 0 spans ∧
      ∀ p, p < (List.replicate 10 'a').length →
        ∃ ab ∈ spans, ab.1 ≤ p ∧ p < ab.2 :=
  (claim_C5_amended (List.replicate 10 'a') 4 2 (by norm_num) (by norm_num)).2 (by decide)

/-! ### Lemmas about the sampling orchestrator -/

theorem getLastD_mem_cons {α : Type _} :
    ∀ (l : List α) (a : α), l.getLastD a ∈ a :: l := by
  intro l
  induction l with
  | nil => intro a; simp [List.getLastD]
  | cons b t ih =>
      intro a
      rw [List.getLastD_cons]
      exact List.mem_cons_of_mem a (ih b)

theorem getLastD_mem_of_ne_nil {α : Type _} (l : List α) (d : α) (h : l ≠ []) :
    l.getLastD d ∈ l := by
  cases l with
  | nil => exact absurd rfl h
  | cons a t => rw [List.getLastD_cons]; exact getLastD_mem_cons t a

theorem getD_zero_mem_of_ne_nil {α : Type _} (l : List α) (d : α) (h : l ≠ []) :
    l.getD 0 d ∈ l := by
  cases l with
  | nil => exact absurd rfl h
  | cons a t => simp [List.getD]

theorem length_filterMap_of_all_some {α β : Type _} (f : α → Option β) :
    ∀ l : List α, (∀ a ∈ l, (f a).isSome) → (l.filterMap f).length = l.length := by
  intro l
  induction l with
  | nil => intro _; rfl
  | cons a t ih =>
      intro h
      have ha := h a (by simp)
      cases hf : f a with
      | none => rw [hf] at ha; simp at ha
      | some b =>
          rw [List.filterMap_cons, hf]
          simp only [List.length_cons]
          rw [ih (fun x hx => h x (by simp [hx]))]

/-- Every middle index computed by the sampler lies strictly below
`total - 1`, so the guard keeps every middle sample and the middle list has
exactly `keep - 2` entries. -/
theorem sampleMiddles_length (all : List (List Char)) (keep : Nat)
    (h2 : 2 ≤ keep) (hlt : keep < all.length) :
    (sampleMiddles all keep).length = keep - 2 := by
  by_cases hk : 2 < keep
  · unfold sampleMiddles
    rw [if_pos hk]
    have hT3 : 3 ≤ all.length := by omega
    rw [length_filterMap_of_all_some]
    · simp
    · intro i hi
      simp only [List.mem_map, List.mem_range] at hi
      obtain ⟨j, hj, rfl⟩ := hi
      have him : j + 1 ≤ keep - 2 := by omega
      have hTq : (3 : ℚ) ≤ (all.length : ℚ) := by exact_mod_cast hT3
      have hstep_nonneg : 0 ≤ sampleMiddleStep all.length (keep - 2) := by
        unfold sampleMiddleStep
        apply div_nonneg (by linarith) (by positivity)
      have hx : ((1 : ℚ) + ((j + 1 : Nat) : ℚ) * sampleMiddleStep all.length (keep - 2)) <
          (all.length : ℚ) - 1 := by
        have h1 : ((j + 1 : Nat) : ℚ) * sampleMiddleStep all.length (keep - 2) ≤
            ((keep - 2 : Nat) : ℚ) * sampleMiddleStep all.length (keep - 2) := by
          apply mul_le_mul_of_nonneg_right _ hstep_nonneg
          exact_mod_cast him
        have h2' : ((keep - 2 : Nat) : ℚ) * sampleMiddleStep all.length (keep - 2) <
            (all.length : ℚ) - 2 := by
          unfold sampleMiddleStep
          have hmq : (0 : ℚ) < ((keep - 2 : Nat) : ℚ) + 1 := by positivity
          rw [mul_div_assoc']
          rw [div_lt_iff₀ hmq]
          nlinarith [hTq]
        linarith
      have hidx : pyIntOfRat ((1 : ℚ) +
          ((j + 1 : Nat) : ℚ) * sampleMiddleStep all.length (keep - 2)) <
          all.length - 1 := by
        unfold pyIntOfRat
        have hfl : Int.floor ((1 : ℚ) +
            ((j + 1 : Nat) : ℚ) * sampleMiddleStep all.length (keep - 2)) <
            (all.length : Int) - 1 := by
          rw [Int.floor_lt]
          push_cast
          push_cast at hx
          linarith
        omega
      simp only [hidx, if_pos, Option.isSome_some]
  · unfold sampleMiddles
    rw [if_neg hk]
    simp only [List.length_nil]
    omega

/-- Selection bounds of the sampler for `0 < ratio < 1`: the first and last
chunks are always selected, and the selection size is the keep count (capped
by the total number of chunks). -/
theorem sampleSelect_bounds (all : List (List Char)) (q : ℚ)
    (_h0 : 0 < q) (h1 : q < 1) (hne : all ≠ []) :
    all.getD 0 [] ∈ sampleSelect all q ∧
    all.getLastD [] ∈ sampleSelect all q ∧
    min all.length (sampleKeepCount all.length q) ≤ (sampleSelect all q).length := by
  have hq1 : ¬ (1 : ℚ) ≤ q := not_le.mpr h1
  by_cases hc : all.length ≤ sampleKeepCount all.length q
  · have hsel : sampleSelect all q = all := by
      unfold sampleSelect
      rw [if_neg hq1, if_pos hc]
    rw [hsel]
    exact ⟨getD_zero_mem_of_ne_nil _ _ hne, getLastD_mem_of_ne_nil _ _ hne,
      min_le_left _ _⟩
  · have hsel : sampleSelect all q =
        (all.getD 0 [] :: sampleMiddles all (sampleKeepCount all.length q)) ++
          [all.getLastD []] := by
      unfold sampleSelect
      rw [if_neg hq1, if_neg hc]
    have hkeep2 : 2 ≤ sampleKeepCount all.length q := le_max_left _ _
    have hclt : sampleKeepCount all.length q < all.length := by omega
    have hm := sampleMiddles_length all (sampleKeepCount all.length q) hkeep2 hclt
    rw [hsel]
    refine ⟨List.mem_append_left _ (List.mem_cons_self _ _), ?_, ?_⟩
    · exact List.mem_append_right _ (by simp)
    · have hlen : ((all.getD 0 [] :: sampleMiddles all (sampleKeepCount all.length q)) ++
          [all.getLastD []]).length = sampleKeepCount all.length q := by
        simp only [List.length_append, List.length_cons, List.length_nil, hm]
        omega
      rw [hlen]
      exact min_le_right _ _

/-- C6 is false as stated: on `c6text` (1529 characters, 3 chunks under
`chunk_size = 25`) with `ratio = 5/6`, the selected subset has 2 elements,
but the claimed lower bound is `max(2, ⌈ratio·N⌉) = max(2, ⌈2.5⌉) = 3`.  The
code computes `int(N·ratio)` which truncates (`int(2.5) = 2`), not the
ceiling. -/
theorem claim_C6_counterexample :
    (allChunksOf c6text 25).length = 3 ∧
    (split_text_into_chunks c6text 25 (5 / 6)).length = 2 ∧
    ¬ (max 2 (Int.ceil (((allChunksOf c6text 25).length : ℚ) * (5 / 6))).toNat ≤
        (split_text_into_chunks c6text 25 (5 / 6)).length) := by
  have h3 : (allChunksOf c6text 25).length = 3 := by decide
  have hfloor : pyIntOfRat (((3 : Nat) : ℚ) * (5 / 6)) = 2 := by
    unfold pyIntOfRat
    have harg : ((3 : Nat) : ℚ) * (5 / 6) = 5 / 2 := by norm_num
    rw [harg]
    have h : (⌊(5 / 2 : ℚ)⌋ : ℤ) = 2 := by norm_num
    rw [h]
    decide
  have hkeep : sampleKeepCount (allChunksOf c6text 25).length (5 / 6) = 2 := by
    unfold sampleKeepCount
    rw [h3, hfloor]
    decide
  have hmid : sampleMiddles (allChunksOf c6text 25) 2 = [] := by
    unfold sampleMiddles
    rw [if_neg (by norm_num)]
  have hsplit : split_text_into_chunks c6text 25 (5 / 6) =
      ((allChunksOf c6text 25).getD 0 [] :: sampleMiddles (allChunksOf c6text 25) 2) ++
        [(allChunksOf c6text 25).getLastD []] := by
    unfold split_text_into_chunks
    rw [if_neg (by decide)]
    simp only [sampleSelect]
    rw [if_neg (by norm_num : ¬ (1 : ℚ) ≤ 5 / 6), hkeep, h3]
    rw [if_neg (by norm_num)]
  have hlen : (split_text_into_chunks c6text 25 (5 / 6)).length = 2 := by
    rw [hsplit, hmid]
    simp
  refine ⟨h3, hlen, ?_⟩
  rw [h3, hlen]
  have hceil : (Int.ceil (((3 : Nat) : ℚ) * (5 / 6))).toNat = 3 := by
    have harg : ((3 : Nat) : ℚ) * (5 / 6) = 5 / 2 := by norm_num
    rw [harg]
    have h : (⌈(5 / 2 : ℚ)⌉ : ℤ) = 3 := by
      rw [Int.ceil_eq_iff]
      norm_num
    rw [h]
    rfl
  rw [hceil]
  norm_num

/-- C6 (amended): for every text longer than the chunk size (with
`chunk_size ≥ 5`, below which the Python slicing step raises `ValueError`),
sampling with `ratio ≥ 1.0` selects every chunk of the initial word-based
split; and for `0 < ratio < 1`, when the split is non-empty, the selection
always contains the first and the last chunk and its size is at least
`min(N, max(2, int(ratio·N)))` — a truncated product, not the ceiling
`⌈ratio·N⌉` stated by the specification. -/
theorem claim_C6_amended (text : List Char) (chunkSize : Nat) (q : ℚ)
    (_hcs : 5 ≤ chunkSize) (hlong : chunkSize < text.length) :
    (1 ≤ q → split_text_into_chunks text chunkSize q = allChunksOf text chunkSize) ∧
    (0 < q → q < 1 → allChunksOf text chunkSize ≠ [] →
      (allChunksOf text chunkSize).getD 0 [] ∈ split_text_into_chunks text chunkSize q ∧
      (allChunksOf text chunkSize).getLastD [] ∈ split_text_into_chunks text chunkSize q ∧
      min (allChunksOf text chunkSize).length
          (sampleKeepCount (allChunksOf text chunkSize).length q) ≤
        (split_text_into_chunks text chunkSize q).length) := by
  have hsplit : split_text_into_chunks text chunkSize q =
      sampleSelect (allChunksOf text chunkSize) q := by
    unfold split_text_into_chunks
    rw [if_neg (by omega)]
  constructor
  · intro hq
    rw [hsplit]
    unfold sampleSelect
    rw [if_pos hq]
  · intro h0 h1 hne
    rw [hsplit]
    exact sampleSelect_bounds _ q h0 h1 hne

/-! ### Lemmas about the checkpoint store -/

/-- The segmenter never returns an empty list of pieces (under the
termination precondition). -/
theorem chunk_text_ne_nil (text : List Char) (maxChars overlap : Nat)
    (hpre : 2 * overlap ≤ maxChars) (hm : 0 < maxChars) :
    ∀ chunks, chunk_text text maxChars overlap = some chunks → chunks ≠ [] := by
  intro chunks hch
  unfold chunk_text at hch
  by_cases hshort : text.length ≤ maxChars
  · rw [if_pos hshort] at hch
    simp only [Option.some.injEq] at hch
    subst hch
    simp
  · rw [if_neg hshort] at hch
    obtain ⟨sp, hsp, hcov⟩ := chunkSpansLoop_cover text maxChars overlap hpre hm
      (text.length + 1) 0 (by omega) (by omega)
    rw [chunkLoop_eq_spans text maxChars overlap _ _ _ hsp] at hch
    simp only [Option.some.injEq] at hch
    subst hch
    have : sp ≠ [] := by
      intro hnil
      subst hnil
      cases hcov with
      | nil _ hle => omega
    simp [this]

/-- A chapter that is regenerated costs at least one service call. -/
theorem summarizeChapterCalls_pos (text : List Char) (maxChars overlap : Nat)
    (mapOk : Nat → Bool) (hpre : 2 * overlap ≤ maxChars) (hm : 0 < maxChars) :
    1 ≤ summarizeChapterCalls text maxChars overlap mapOk := by
  unfold summarizeChapterCalls
  by_cases hshort : text.length ≤ maxChars
  · rw [if_pos hshort]
  · rw [if_neg hshort]
    obtain ⟨chunks, hch⟩ := chunk_text_total text maxChars overlap hpre hm
    rw [hch]
    have hne := chunk_text_ne_nil text maxChars overlap hpre hm chunks hch
    have h1 : 1 ≤ chunks.length := by
      cases chunks with
      | nil => exact absurd rfl hne
      | cons a t => simp
    exact le_trans h1 (Nat.le_add_right _ _)

/-- Witness for the amended C6 at a concrete input. -/
theorem claim_C6_witness :
    (allChunksOf c6text 25).getD 0 [] ∈ split_text_into_chunks c6text 25 (5 / 6) ∧
    (allChunksOf c6text 25).getLastD [] ∈ split_text_into_chunks c6text 25 (5 / 6) ∧
    min (allChunksOf c6text 25).length
        (sampleKeepCount (allChunksOf c6text 25).length (5 / 6)) ≤
      (split_text_into_chunks c6text 25 (5 / 6)).length :=
  (claim_C6_amended c6text 25 (5 / 6) (by norm_num) (by decide)).2
    (by norm_num) (by norm_num) (by decide)

/-! ### Claims about the checkpoint store -/

/-- C2: a unit is skipped (zero service calls) only if all three of the
following hold: its index is in the checkpoint's completed list, the stored
fingerprint for that index equals the fingerprint freshly computed from the
unit's current text, and an artifact file whose name matches both that index
and that fingerprint exists in the chapters directory; if any of the three
fails, the unit is reprocessed. -/
theorem claim_C2_skip_conditions (st : ResumeState) (files : List (List Char × String))
    (idx : Nat) (text : String) (maxChars overlap : Nat) (mapOk : Nat → Bool)
    (hpre : 2 * overlap ≤ maxChars) (hm : 0 < maxChars) :
    (chapterServiceCalls st files idx (compute_hash text) text.data maxChars overlap mapOk = 0 →
      idx ∈ st.completed ∧
      dictGet st.chapter_hashes idx = some (compute_hash text) ∧
      ∃ f ∈ files, ((pad2 idx ++ ['_']).isPrefixOf f.1 ∧
        ('_' :: (compute_hash text).data ++ ['.', 'm', 'd']).isSuffixOf f.1)) ∧
    (¬ (idx ∈ st.completed ∧
        dictGet st.chapter_hashes idx = some (compute_hash text) ∧
        ∃ f ∈ files, ((pad2 idx ++ ['_']).isPrefixOf f.1 ∧
          ('_' :: (compute_hash text).data ++ ['.', 'm', 'd']).isSuffixOf f.1)) →
      chapterAction st files idx (compute_hash text) = ChapterAction.regenerate) := by
  have hpos := summarizeChapterCalls_pos text.data maxChars overlap mapOk hpre hm
  constructor
  · intro hzero
    have haction : ∃ s, chapterAction st files idx (compute_hash text) =
        ChapterAction.skipLoaded s := by
      cases hact : chapterAction st files idx (compute_hash text) with
      | skipLoaded s => exact ⟨s, rfl⟩
      | regenerate =>
          exfalso
          have heq : chapterServiceCalls st files idx (compute_hash text) text.data
              maxChars overlap mapOk =
              summarizeChapterCalls text.data maxChars overlap mapOk := by
            unfold chapterServiceCalls
            rw [hact]
          omega
    obtain ⟨s, hact⟩ := haction
    unfold chapterAction at hact
    by_cases hmem : idx ∈ st.completed
    · rw [if_pos hmem] at hact
      by_cases hhash : dictGet st.chapter_hashes idx = some (compute_hash text)
      · rw [if_pos hhash] at hact
        cases hfind : findChapterFile files idx (compute_hash text) with
        | none => rw [hfind] at hact; cases hact
        | some f =>
            refine ⟨hmem, hhash, f, ?_, ?_⟩
            · exact List.mem_of_find?_eq_some hfind
            · have hp := List.find?_some hfind
              simp only [Bool.and_eq_true] at hp
              exact ⟨hp.1, hp.2⟩
      · rw [if_neg hhash] at hact; cases hact
    · rw [if_neg hmem] at hact; cases hact
  · intro hnot
    unfold chapterAction
    by_cases hmem : idx ∈ st.completed
    · rw [if_pos hmem]
      by_cases hhash : dictGet st.chapter_hashes idx = some (compute_hash text)
      · rw [if_pos hhash]
        cases hfind : findChapterFile files idx (compute_hash text) with
        | none => rfl
        | some f =>
            exfalso
            apply hnot
            refine ⟨hmem, hhash, f, List.mem_of_find?_eq_some hfind, ?_⟩
            have hp := List.find?_some hfind
            simp only [Bool.and_eq_true] at hp
            exact ⟨hp.1, hp.2⟩
      · rw [if_neg hhash]
    · rw [if_neg hmem]

/-- Witness for C2 at concrete inputs. -/
theorem claim_C2_witness :
    (chapterServiceCalls (ResumeState.mk [1] [(1, compute_hash "abc")] 3 "qwen3:8b")
        [("01_Intro_90015098.md".data, "S")] 1 (compute_hash "abc") "abc".data
        16000 400 (fun _ => true) = 0 →
      1 ∈ [1] ∧
      dictGet [(1, compute_hash "abc")] 1 = some (compute_hash "abc") ∧
      ∃ f ∈ [("01_Intro_90015098.md".data, "S")],
        ((pad2 1 ++ ['_']).isPrefixOf f.1 ∧
          ('_' :: (compute_hash "abc").data ++ ['.', 'm', 'd']).isSuffixOf f.1)) ∧
    (¬ (1 ∈ [1] ∧
        dictGet [(1, compute_hash "abc")] 1 = some (compute_hash "abc") ∧
        ∃ f ∈ [("01_Intro_90015098.md".data, "S")],
          ((pad2 1 ++ ['_']).isPrefixOf f.1 ∧
            ('_' :: (compute_hash "abc").data ++ ['.', 'm', 'd']).isSuffixOf f.1)) →
      chapterAction (ResumeState.mk [1] [(1, compute_hash "abc")] 3 "qwen3:8b")
        [("01_Intro_90015098.md".data, "S")] 1 (compute_hash "abc") =
        ChapterAction.regenerate) :=
  claim_C2_skip_conditions (ResumeState.mk [1] [(1, compute_hash "abc")] 3 "qwen3:8b")
    [("01_Intro_90015098.md".data, "S")] 1 "abc" 16000 400 (fun _ => true)
    (by norm_num) (by norm_num)

/-- C4: when the loaded checkpoint's recorded model differs from the current
run's configured model, the completed list and the fingerprint map are
cleared before processing begins, so the skip test fails for every unit and
every unit is reprocessed. -/
theorem claim_C4_model_invalidation (s : ResumeState) (curModel : String)
    (keptCount : Nat) (files : List (List Char × String)) (idx : Nat)
    (textHash : String) (hne : s.model ≠ curModel) :
    (initResumeState (some s) curModel keptCount).completed = [] ∧
    (initResumeState (some s) curModel keptCount).chapter_hashes = [] ∧
    chapterAction (initResumeState (some s) curModel keptCount) files idx textHash =
      ChapterAction.regenerate := by
  have hinit : initResumeState (some s) curModel keptCount =
      { s with completed := [], chapter_hashes := [] } := by
    unfold initResumeState
    simp only [if_pos hne]
  refine ⟨by rw [hinit], by rw [hinit], ?_⟩
  rw [hinit]
  unfold chapterAction
  rw [if_neg (by simp)]

/-- Witness for C4 at concrete inputs. -/
theorem claim_C4_witness :
    (initResumeState (some (ResumeState.mk [1, 2] [(1, "0a1b2c3d"), (2, "11223344")] 2
        "qwen3:8b")) "qwen3:30b" 2).completed = [] ∧
    (initResumeState (some (ResumeState.mk [1, 2] [(1, "0a1b2c3d"), (2, "11223344")] 2
        "qwen3:8b")) "qwen3:30b" 2).chapter_hashes = [] ∧
    chapterAction (initResumeState (some (ResumeState.mk [1, 2]
        [(1, "0a1b2c3d"), (2, "11223344")] 2 "qwen3:8b")) "qwen3:30b" 2)
        [("01_Intro_0a1b2c3d.md".data, "S")] 1 "0a1b2c3d" =
      ChapterAction.regenerate :=
  claim_C4_model_invalidation
    (ResumeState.mk [1, 2] [(1, "0a1b2c3d"), (2, "11223344")] 2 "qwen3:8b")
    "qwen3:30b" 2 [("01_Intro_0a1b2c3d.md".data, "S")] 1 "0a1b2c3d" (by decide)

/-- C1: the claimed reconciliation does not happen in the code.  With the
checkpoint file missing and five valid artifact files on disk,
`scan_existing_chapters` does decode `{1..5}` with their fingerprints
(first conjunct), but `process_book` binds that scan to an unused variable
and builds a fresh empty state (second conjunct), so the skip test fails
and every one of the five units is reprocessed (third conjunct) instead of
being skipped as the claim requires. -/
theorem claim_C1_code_bug :
    scan_existing_chapters c1files = c1pairs ∧
    initResumeState none "qwen3:8b" 5 = ResumeState.mk [] [] 5 "qwen3:8b" ∧
    ∀ p ∈ c1pairs,
      chapterAction (initResumeState none "qwen3:8b" 5) c1dir p.1 p.2 =
        ChapterAction.regenerate := by
  refine ⟨by decide, by decide, by decide⟩

/-! ### Claims about checkpoint persistence -/

/-- The serialized checkpoint is never the empty string. -/
theorem stateJson_ne_empty (st : ResumeState) : stateJson st ≠ "" := by
  intro h
  have hlen : (stateJson st).length = 0 := by rw [h]; rfl
  unfold stateJson at hlen
  simp only [String.length_append] at hlen
  have h14 : ("\x7b\"completed\": " : String).length = 14 := rfl
  rw [h14] at hlen
  omega

/-- C3 is false as stated: saving is not atomic.  On the concrete scenario
(previous checkpoint `"OLD-STATE"` on disk), a kill after the truncating
`open` but before the write (prefix of length 1 of the save trace) leaves
the checkpoint file empty — neither the complete previous checkpoint nor
the complete new one. -/
theorem claim_C3_counterexample :
    ¬ (∀ k, k ≤ (save_resume_state_ops c3state "state.json").length →
        runFsOps c3fs ((save_resume_state_ops c3state "state.json").take k) "state.json" =
            c3fs "state.json" ∨
          runFsOps c3fs ((save_resume_state_ops c3state "state.json").take k) "state.json" =
            some (stateJson c3state)) := by
  intro h
  have h1 := h 1 (by decide)
  revert h1
  decide

/-- C3 (amended): `save_resume_state` opens the checkpoint path itself with
truncation and writes the serialization directly — its trace contains no
rename (and no temporary location); after the full trace the file holds the
complete new state, but there is an interruption point (right after the
truncating open) at which the file is neither the previous content nor the
new state. -/
theorem claim_C3_amended (st : ResumeState) (path : String)
    (fs : String → Option String) (hold : fs path ≠ some "") :
    runFsOps fs (save_resume_state_ops st path) path = some (stateJson st) ∧
    (∀ op ∈ save_resume_state_ops st path, ∀ src dst, op ≠ FsOp.rename src dst) ∧
    ∃ k, k ≤ (save_resume_state_ops st path).length ∧
      runFsOps fs ((save_resume_state_ops st path).take k) path ≠ fs path ∧
      runFsOps fs ((save_resume_state_ops st path).take k) path ≠
        some (stateJson st) := by
  have htrunc : runFsOps fs [FsOp.openTrunc path] path = some "" := by
    simp [runFsOps, applyFsOp]
  refine ⟨?_, ?_, 1, by simp [save_resume_state_ops], ?_, ?_⟩
  · simp [runFsOps, applyFsOp, save_resume_state_ops]
  · intro op hop src dst
    simp only [save_resume_state_ops, List.mem_cons, List.mem_singleton] at hop
    rcases hop with rfl | hop
    · simp
    · rcases hop with rfl | hop
      · simp
      · simp at hop
  · show runFsOps fs ((save_resume_state_ops st path).take 1) path ≠ fs path
    simp only [save_resume_state_ops, List.take_succ_cons, List.take_zero]
    rw [htrunc]
    exact fun hcontra => hold hcontra.symm
  · show runFsOps fs ((save_resume_state_ops st path).take 1) path ≠
      some (stateJson st)
    simp only [save_resume_state_ops, List.take_succ_cons, List.take_zero]
    rw [htrunc]
    intro hcontra
    exact stateJson_ne_empty st (Option.some.inj hcontra).symm

/-- Witness for the amended C3 at concrete inputs. -/
theorem claim_C3_witness :
    runFsOps c3fs (save_resume_state_ops c3state "state.json") "state.json" =
      some (stateJson c3state) ∧
    (∀ op ∈ save_resume_state_ops c3state "state.json",
      ∀ src dst, op ≠ FsOp.rename src dst) ∧
    ∃ k, k ≤ (save_resume_state_ops c3state "state.json").length ∧
      runFsOps c3fs ((save_resume_state_ops c3state "state.json").take k) "state.json" ≠
        c3fs "state.json" ∧
      runFsOps c3fs ((save_resume_state_ops c3state "state.json").take k) "state.json" ≠
        some (stateJson c3state) :=
  claim_C3_amended c3state "state.json" c3fs (by decide)

/-! ### Claims about the service adapters -/

/-- The attempt counter returned by `callOllamaLoop` never falls below the
attempt it starts from. -/
theorem callOllamaLoop_attempts_ge (att : Nat → CallOutcome) (maxRetries : Nat) :
    ∀ fuel attempt sleeps,
      attempt ≤ (callOllamaLoop att maxRetries fuel attempt sleeps).2.2 := by
  intro fuel
  induction fuel with
  | zero => intro attempt sleeps; simp [callOllamaLoop]
  | succ f ih =>
      intro attempt sleeps
      unfold callOllamaLoop
      by_cases hlt : attempt < maxRetries
      · rw [if_pos hlt]
        cases att attempt with
        | ok r => simp
        | reqExc k =>
            by_cases hlast : attempt < maxRetries - 1
            · rw [if_pos hlast]
              exact le_trans (by omega) (ih (attempt + 1) _)
            · rw [if_neg hlast]; simp
        | otherExc m => simp
      · rw [if_neg hlt]

/-- Once the loop performs an attempt, the returned attempt count exceeds
it. -/
theorem callOllamaLoop_attempts_succ (att : Nat → CallOutcome) (maxRetries : Nat) :
    ∀ fuel attempt sleeps, attempt < maxRetries → 1 ≤ fuel →
      attempt + 1 ≤ (callOllamaLoop att maxRetries fuel attempt sleeps).2.2 := by
  intro fuel
  induction fuel with
  | zero => intro attempt sleeps _ hf; omega
  | succ f ih =>
      intro attempt sleeps hlt _
      unfold callOllamaLoop
      rw [if_pos hlt]
      cases att attempt with
      | ok r => simp
      | reqExc k =>
          by_cases hlast : attempt < maxRetries - 1
          · rw [if_pos hlast]
            exact le_trans (by omega) (callOllamaLoop_attempts_ge att maxRetries f (attempt + 1) _)
          · rw [if_neg hlast]
      | otherExc m => simp

/-- Backoff sleeps already performed are never discarded by the loop. -/
theorem callOllamaLoop_sleeps_extend (att : Nat → CallOutcome) (maxRetries : Nat) :
    ∀ fuel attempt sleeps,
      ∃ t, (callOllamaLoop att maxRetries fuel attempt sleeps).2.1 = sleeps ++ t := by
  intro fuel
  induction fuel with
  | zero => intro attempt sleeps; exact ⟨[], by simp [callOllamaLoop]⟩
  | succ f ih =>
      intro attempt sleeps
      unfold callOllamaLoop
      by_cases hlt : attempt < maxRetries
      · rw [if_pos hlt]
        cases att attempt with
        | ok r => exact ⟨[], by simp⟩
        | reqExc k =>
            by_cases hlast : attempt < maxRetries - 1
            · rw [if_pos hlast]
              obtain ⟨t, ht⟩ := ih (attempt + 1) (sleeps ++ [2 ^ (attempt + 1)])
              exact ⟨[2 ^ (attempt + 1)] ++ t, by rw [ht]; simp⟩
            · rw [if_neg hlast]; exact ⟨[], by simp⟩
        | otherExc m => exact ⟨[], by simp⟩
      · rw [if_neg hlt]; exact ⟨[], by simp⟩

/-- C7 is false as stated for `call_ollama`: when every attempt yields an
HTTP error response (`raise_for_status` raises `HTTPError`, a
`RequestException`), the adapter retries anyway — with `max_retries = 3` it
performs 3 attempts and sleeps 2 s and 4 s, instead of the single attempt
with immediate failure report the claim requires. -/
theorem claim_C7_counterexample :
    call_ollama (fun _ => CallOutcome.reqExc (ReqExcKind.httpExc 500)) 3 =
      (none, [2, 4], 3) ∧
    (3 : Nat) ≠ 1 ∧ ([2, 4] : List Nat) ≠ [] :=
  ⟨by decide, by decide, by decide⟩

/-- C7 (amended): the no-retry-on-HTTP-error behaviour belongs to
`call_ollama_fast` only — there an HTTP error on the first attempt breaks
the loop at once: one attempt, no backoff sleep, and an `http_error`
classification.  `call_ollama` (riassumi_libri.py) instead treats an HTTP
error like every other `RequestException`: with `maxRetries ≥ 2` it performs
at least a second attempt and sleeps before it. -/
theorem claim_C7_amended (att : Nat → FastOutcome) (status : Nat) (maxRetries : Nat)
    (h0 : att 0 = FastOutcome.httpExc status) (hm : 0 < maxRetries) :
    call_ollama_fast att maxRetries =
      ((none, some (FailureInfo.mk "http_error" 1)), [], 1) ∧
    (∀ (att2 : Nat → CallOutcome) (k : ReqExcKind) (mr2 : Nat),
      att2 0 = CallOutcome.reqExc k → 2 ≤ mr2 →
        2 ≤ (call_ollama att2 mr2).2.2 ∧ (call_ollama att2 mr2).2.1 ≠ []) := by
  constructor
  · obtain ⟨m, rfl⟩ : ∃ m, maxRetries = m + 1 := ⟨maxRetries - 1, by omega⟩
    unfold call_ollama_fast callFastLoop
    rw [if_pos (by omega : 0 < m + 1), h0]
  · intro att2 k mr2 h0' hmr2
    have hstep : call_ollama att2 mr2 =
        callOllamaLoop att2 mr2 (mr2 - 1) 1 [2 ^ 1] := by
      unfold call_ollama
      obtain ⟨m, rfl⟩ : ∃ m, mr2 = m + 2 := ⟨mr2 - 2, by omega⟩
      unfold callOllamaLoop
      rw [if_pos (by omega : 0 < m + 2), h0',
        if_pos (by omega : 0 < m + 2 - 1)]
      simp only [List.nil_append]
      rfl
    constructor
    · rw [hstep]
      exact callOllamaLoop_attempts_succ att2 mr2 (mr2 - 1) 1 [2 ^ 1]
        (by omega) (by omega)
    · rw [hstep]
      obtain ⟨t, ht⟩ := callOllamaLoop_sleeps_extend att2 mr2 (mr2 - 1) 1 [2 ^ 1]
      rw [ht]
      simp

/-- Witness for the amended C7 at concrete inputs. -/
theorem claim_C7_witness :
    call_ollama_fast (fun _ => FastOutcome.httpExc 500) 3 =
      ((none, some (FailureInfo.mk "http_error" 1)), [], 1) ∧
    (∀ (att2 : Nat → CallOutcome) (k : ReqExcKind) (mr2 : Nat),
      att2 0 = CallOutcome.reqExc k → 2 ≤ mr2 →
        2 ≤ (call_ollama att2 mr2).2.2 ∧ (call_ollama att2 mr2).2.1 ≠ []) :=
  claim_C7_amended (fun _ => FastOutcome.httpExc 500) 500 3 rfl (by norm_num)

/-- C8 is false as stated for `call_ollama`: with `max_retries = 3`, two
timeouts followed by a success do return the generated text, but the
backoff sleeps are `2 ** (attempt + 1)`, i.e. 2 s then 4 s — not the claimed
1 s and 2 s. -/
theorem claim_C8_counterexample :
    call_ollama
        (fun n => if n < 2 then CallOutcome.reqExc ReqExcKind.timeoutExc
          else CallOutcome.ok "RIASSUNTO") 3 =
      (some "RIASSUNTO", [2, 4], 3) ∧
    ([2, 4] : List Nat) ≠ [1, 2] :=
  ⟨by decide, by decide⟩

/-- C8 (amended): with `maxRetries = 3` and two timeouts followed by a
success with non-empty output, `call_ollama_fast` returns the stripped text
with no error after sleeping 1 s and 2 s (`2 ** attempt`), while
`call_ollama` returns the stripped text after sleeping 2 s and 4 s
(`2 ** (attempt + 1)`). -/
theorem claim_C8_amended (att : Nat → FastOutcome) (r : String)
    (h0 : att 0 = FastOutcome.timeoutExc) (h1 : att 1 = FastOutcome.timeoutExc)
    (h2 : att 2 = FastOutcome.ok r) (hr : pyStripStr r ≠ "") :
    call_ollama_fast att 3 = ((some (pyStripStr r), none), [1, 2], 3) ∧
    (∀ (att2 : Nat → CallOutcome) (r2 : String),
      att2 0 = CallOutcome.reqExc ReqExcKind.timeoutExc →
      att2 1 = CallOutcome.reqExc ReqExcKind.timeoutExc →
      att2 2 = CallOutcome.ok r2 →
      call_ollama att2 3 = (some (pyStripStr r2), [2, 4], 3)) := by
  constructor
  · have e2 : callFastLoop att 3 1 2 (some (FailureInfo.mk "timeout" 2)) [1, 2] =
        ((some (pyStripStr r), none), [1, 2], 3) := by
      unfold callFastLoop
      rw [if_pos (by norm_num : (2 : Nat) < 3), h2]
      show (if pyStripStr r = "" then
          callFastLoop att 3 0 3 (some (FailureInfo.mk "empty_response" 3)) [1, 2]
        else ((some (pyStripStr r), none), [1, 2], 3)) =
        ((some (pyStripStr r), none), [1, 2], 3)
      rw [if_neg hr]
    have e1 : callFastLoop att 3 2 1 (some (FailureInfo.mk "timeout" 1)) [1] =
        ((some (pyStripStr r), none), [1, 2], 3) := by
      unfold callFastLoop
      rw [if_pos (by norm_num : (1 : Nat) < 3), h1,
        if_pos (by norm_num : (1 : Nat) < 3 - 1)]
      exact e2
    have e0 : callFastLoop att 3 3 0 none [] =
        ((some (pyStripStr r), none), [1, 2], 3) := by
      unfold callFastLoop
      rw [if_pos (by norm_num : (0 : Nat) < 3), h0,
        if_pos (by norm_num : (0 : Nat) < 3 - 1)]
      exact e1
    exact e0
  · intro att2 r2 h0' h1' h2'
    have e2 : callOllamaLoop att2 3 1 2 [2, 4] = (some (pyStripStr r2), [2, 4], 3) := by
      unfold callOllamaLoop
      rw [if_pos (by norm_num : (2 : Nat) < 3), h2']
    have e1 : callOllamaLoop att2 3 2 1 [2] = (some (pyStripStr r2), [2, 4], 3) := by
      unfold callOllamaLoop
      rw [if_pos (by norm_num : (1 : Nat) < 3), h1',
        if_pos (by norm_num : (1 : Nat) < 3 - 1)]
      exact e2
    have e0 : callOllamaLoop att2 3 3 0 [] = (some (pyStripStr r2), [2, 4], 3) := by
      unfold callOllamaLoop
      rw [if_pos (by norm_num : (0 : Nat) < 3), h0',
        if_pos (by norm_num : (0 : Nat) < 3 - 1)]
      exact e1
    exact e0

/-- Witness for the amended C8 at concrete inputs. -/
theorem claim_C8_witness :
    call_ollama_fast
        (fun n => if n < 2 then FastOutcome.timeoutExc else FastOutcome.ok " testo ") 3 =
      ((some (pyStripStr " testo "), none), [1, 2], 3) ∧
    (∀ (att2 : Nat → CallOutcome) (r2 : String),
      att2 0 = CallOutcome.reqExc ReqExcKind.timeoutExc →
      att2 1 = CallOutcome.reqExc ReqExcKind.timeoutExc →
      att2 2 = CallOutcome.ok r2 →
      call_ollama att2 3 = (some (pyStripStr r2), [2, 4], 3)) :=
  claim_C8_amended
    (fun n => if n < 2 then FastOutcome.timeoutExc else FastOutcome.ok " testo ")
    " testo " rfl rfl rfl (by decide)

/-! ### Claims about the fingerprint and the filename round-trip -/

theorem digitsVal_aux (L : List Nat) :
    ∀ a : Nat, (∀ d ∈ L, d < 10) →
      List.foldl (fun acc c => acc * 10 + (c.toNat - 48)) a ((L.map digChar).reverse) =
        a * 10 ^ L.length + Nat.ofDigits 10 L := by
  induction L with
  | nil =>
      intro a _
      simp [Nat.ofDigits_nil]
  | cons d T ih =>
      intro a hlt
      have hd : d < 10 := hlt d (by simp)
      have hchar : (digChar d).toNat - 48 = d := by
        interval_cases d <;> decide
      simp only [List.map_cons, List.reverse_cons, List.foldl_append, List.foldl_cons,
        List.foldl_nil]
      rw [ih a (fun x hx => hlt x (by simp [hx])), hchar, Nat.ofDigits_cons]
      simp only [List.length_cons, pow_succ]
      ring

theorem digitsVal_decRepr (n : Nat) : digitsVal (decRepr n) = n := by
  unfold digitsVal decRepr
  rw [digitsVal_aux (Nat.digits 10 n) 0
    (fun d hd => Nat.digits_lt_base (by norm_num) hd)]
  simp [Nat.ofDigits_digits]

theorem decRepr_digits (n : Nat) : ∀ c ∈ decRepr n, isDigitChar c = true := by
  intro c hc
  unfold decRepr at hc
  rw [List.mem_reverse, List.mem_map] at hc
  obtain ⟨d, hd, rfl⟩ := hc
  have : d < 10 := Nat.digits_lt_base (by norm_num) hd
  interval_cases d <;> decide

theorem pad2_digits (idx : Nat) : ∀ c ∈ pad2 idx, isDigitChar c = true := by
  intro c hc
  unfold pad2 at hc
  by_cases h : (decRepr idx).length < 2
  · rw [if_pos h] at hc
    rcases hc with _ | hc
    · decide
    · exact decRepr_digits idx c (by assumption)
  · rw [if_neg h] at hc
    exact decRepr_digits idx c hc

theorem pad2_ne_nil (idx : Nat) : pad2 idx ≠ [] := by
  unfold pad2
  by_cases h : (decRepr idx).length < 2
  · rw [if_pos h]; simp
  · rw [if_neg h]
    intro hnil
    rw [hnil] at h
    simp at h

theorem digitsVal_pad2 (idx : Nat) : digitsVal (pad2 idx) = idx := by
  unfold pad2
  by_cases h : (decRepr idx).length < 2
  · rw [if_pos h]
    have : digitsVal ('0' :: decRepr idx) = digitsVal (decRepr idx) := rfl
    rw [this, digitsVal_decRepr]
  · rw [if_neg h, digitsVal_decRepr]

theorem takeWhile_all_append (p : Char → Bool) :
    ∀ (xs : List Char) (y : Char) (ys : List Char),
      (∀ c ∈ xs, p c = true) → p y = false →
      (xs ++ y :: ys).takeWhile p = xs := by
  intro xs
  induction xs with
  | nil =>
      intro y ys _ hy
      simp [List.takeWhile_cons, hy]
  | cons x t ih =>
      intro y ys hall hy
      have hx : p x = true := hall x (by simp)
      simp only [List.cons_append, List.takeWhile_cons, hx, if_true]
      simp only [ih y ys (fun c hc => hall c (by simp [hc])) hy]

theorem parseTailFrom_encode (title h : List Char) (hlen : h.length = 8)
    (hhex : h.all isHexLowerDigit = true) (htitle : title.all (· ≠ '\n') = true) :
    parseTailFrom (title ++ '_' :: (h ++ ['.', 'm', 'd'])) = some h := by
  unfold parseTailFrom
  have hrev : (title ++ '_' :: (h ++ ['.', 'm', 'd'])).reverse =
      'd' :: 'm' :: '.' :: (h.reverse ++ '_' :: title.reverse) := by
    simp
  rw [hrev]
  have hrl : h.reverse.length = 8 := by simp [hlen]
  have htake : (h.reverse ++ '_' :: title.reverse).take 8 = h.reverse := by
    rw [← hrl, List.take_left]
  have hdrop : (h.reverse ++ '_' :: title.reverse).drop 8 = '_' :: title.reverse := by
    rw [← hrl, List.drop_left]
  show parseTailAt (h.reverse ++ '_' :: title.reverse) = some h
  unfold parseTailAt
  rw [hdrop]
  show parseTailChecked ((h.reverse ++ '_' :: title.reverse).take 8) title.reverse = some h
  rw [htake]
  unfold parseTailChecked
  rw [if_pos ⟨hrl, by rw [List.all_reverse]; exact hhex, by rw [List.all_reverse]; exact htitle⟩]
  rw [List.reverse_reverse]

theorem pyMatchChapterPat_encode (idx : Nat) (title h : List Char)
    (hlen : h.length = 8) (hhex : h.all isHexLowerDigit = true)
    (htitle : title.all (· ≠ '\n') = true) :
    pyMatchChapterPat (pad2 idx ++ '_' :: (title ++ '_' :: (h ++ ['.', 'm', 'd']))) =
      some (idx, h) := by
  have hds : (pad2 idx ++ '_' :: (title ++ '_' :: (h ++ ['.', 'm', 'd']))).takeWhile
      isDigitChar = pad2 idx :=
    takeWhile_all_append isDigitChar (pad2 idx) '_' _ (pad2_digits idx) (by decide)
  have hdrop : (pad2 idx ++ '_' :: (title ++ '_' :: (h ++ ['.', 'm', 'd']))).drop
      (pad2 idx).length = '_' :: (title ++ '_' :: (h ++ ['.', 'm', 'd'])) :=
    List.drop_left _ _
  have hne : (pad2 idx).isEmpty = false := by
    cases hp : pad2 idx with
    | nil => exact absurd hp (pad2_ne_nil idx)
    | cons a t => rfl
  unfold pyMatchChapterPat
  rw [hds, hne]
  simp only [Bool.false_eq_true, if_false]
  rw [hdrop]
  have hiota : pyMatchAfterDigits (pad2 idx) ('_' :: (title ++ '_' :: (h ++ ['.', 'm', 'd']))) =
      some (digitsVal (pad2 idx), h) := by
    show (match parseTailFrom (title ++ '_' :: (h ++ ['.', 'm', 'd'])) with
      | some hh => some (digitsVal (pad2 idx), hh)
      | none =>
          match (title ++ '_' :: (h ++ ['.', 'm', 'd'])).getLast? with
          | some '\n' =>
              Option.map (fun hh => (digitsVal (pad2 idx), hh))
                (parseTailFrom (title ++ '_' :: (h ++ ['.', 'm', 'd'])).dropLast)
          | _ => none) = some (digitsVal (pad2 idx), h)
    rw [parseTailFrom_encode title h hlen hhex htitle]
  rw [hiota, digitsVal_pad2]

theorem md5Digest_length (msg : List Nat) : (md5Digest msg).length = 16 := by
  unfold md5Digest wordBytesLE
  simp

theorem length_flatMap_pair {α : Type _} (f g : α → Char) :
    ∀ l : List α, (l.flatMap (fun b => [f b, g b])).length = 2 * l.length := by
  intro l
  induction l with
  | nil => rfl
  | cons a t ih => simp only [List.flatMap_cons, List.length_append, ih]; simp; omega

theorem md5Hex_length (msg : List Nat) : (md5Hex msg).length = 32 := by
  unfold md5Hex
  rw [length_flatMap_pair _ _ (md5Digest msg), md5Digest_length]

theorem hexChar_hex (n : Nat) : isHexLowerDigit (hexChar n) = true := by
  unfold hexChar
  have hm : n % 16 < 16 := Nat.mod_lt n (by norm_num)
  set m := n % 16 with hmeq
  interval_cases m <;> decide

theorem md5Hex_all_hex (msg : List Nat) :
    ∀ c ∈ md5Hex msg, isHexLowerDigit c = true := by
  intro c hc
  unfold md5Hex at hc
  rw [List.mem_flatMap] at hc
  obtain ⟨b, _, hb⟩ := hc
  simp only [List.mem_cons, List.mem_singleton, List.not_mem_nil, or_false] at hb
  rcases hb with rfl | rfl
  · exact hexChar_hex (b / 16)
  · exact hexChar_hex (b % 16)

/-- C10: `compute_hash` always returns exactly 8 lowercase hexadecimal
characters, and consequently, for every unit index `idx ≥ 1` and every
sanitized title without a newline, the artifact filename
`f"{idx:02d}_{safe_title}_{hash}.md"` written by `process_book` is matched
by the pattern `^(\d+)_.*_([a-f0-9]{8})\.md$` of `scan_existing_chapters`,
which decodes exactly the pair `(idx, hash)`: the filename encoding and the
directory-scan decoding round-trip. -/
theorem claim_C10_roundtrip (text : String) (idx : Nat) (title : List Char)
    (_hidx : 1 ≤ idx) (htitle : '\n' ∉ title) :
    (compute_hash text).length = 8 ∧
    (∀ c ∈ (compute_hash text).data, isHexLowerDigit c = true) ∧
    pyMatchChapterPat (chapterFilename idx title (compute_hash text)) =
      some (idx, (compute_hash text).data) := by
  have hdata : (compute_hash text).data = (md5Hex (pyEncodeUtf8 text.data)).take 8 := rfl
  have hlen : (compute_hash text).data.length = 8 := by
    rw [hdata, List.length_take, md5Hex_length]
    decide
  have hhexall : ∀ c ∈ (compute_hash text).data, isHexLowerDigit c = true := by
    intro c hc
    rw [hdata] at hc
    exact md5Hex_all_hex _ c (List.take_subset 8 _ hc)
  refine ⟨hlen, hhexall, ?_⟩
  unfold chapterFilename
  exact pyMatchChapterPat_encode idx title (compute_hash text).data hlen
    (List.all_eq_true.mpr fun c hc => hhexall c hc)
    (List.all_eq_true.mpr fun c hc => by
      simp only [decide_eq_true_eq]
      intro hceq
      exact htitle (hceq ▸ hc))

/-- Witness for C10 at concrete inputs (`compute_hash "abc" = "90015098"`). -/
theorem claim_C10_witness :
    (compute_hash "abc").length = 8 ∧
    (∀ c ∈ (compute_hash "abc").data, isHexLowerDigit c = true) ∧
    pyMatchChapterPat (chapterFilename 7 "Intro".data (compute_hash "abc")) =
      some (7, (compute_hash "abc").data) :=
  claim_C10_roundtrip "abc" 7 "Intro".data (by norm_num) (by decide)

end Riassunti
